import Mathlib

/-!
Shallow embedding of the Key Transparency epoch sequencer
(core/sequencer/sequencer.go) and formal statements checking the
natural-language specification against it.

Modelling conventions:
* byte strings are `List Nat`;
* the Go `map[[32]byte]*trillian.MapLeaf` is an association list whose
  keys are the 32-byte arrays produced by `toArray`; insertion overwrites
  the existing binding in place (Go map semantics), and the final
  `range` over the map is modelled by listing the values in key-insertion
  order (Go's iteration order is unspecified; all statements below are
  insensitive to that order);
* external collaborators (the Trillian map/log clients, the mutation
  source, the entry codec `entry.FromLeafValue`, and the injected
  `mutator.Mutator`) live outside this repository and are modelled as
  parameters, collected in a `World` record; each RPC result is
  `Except Unit _` (only nil-ness of the Go error matters);
* every RPC issued by the sequencer is recorded in a trace of
  `RpcEvent`s so that statements about which RPCs are (not) issued are
  statements about the trace.
-/

namespace KT

/-- Byte strings (`[]byte`). -/
abbrev Bytes := List Nat

/-- `tpb.Entry` is an opaque protobuf payload here: the sequencer never
inspects it, it only passes it between `entry.FromLeafValue` and the
injected Mutator. -/
abbrev Entry := Bytes

/-- `tpb.KeyValue`. -/
structure KeyValue where
  key : Bytes
  value : Bytes
deriving DecidableEq

/-- `tpb.SignedKV` (the signatures map is irrelevant to the sequencer;
it is carried as an opaque list of (key-id, signature) pairs). -/
structure SignedKV where
  keyValue : KeyValue
  sigs : List (Nat × Bytes)
deriving DecidableEq

/-- `trillian.MapLeaf`. -/
structure MapLeaf where
  index : Bytes
  leafValue : Bytes
deriving DecidableEq

/-- Association list standing in for `map[[32]byte]*trillian.MapLeaf`. -/
abbrev AssocMap := List (Bytes × MapLeaf)

/-- Map lookup (`leafMap[k]`). -/
def amFind : AssocMap → Bytes → Option MapLeaf
  | [], _ => none
  | (k2, v) :: rest, k => if k2 = k then some v else amFind rest k

/-- Map store (`m[k] = v`): overwrites an existing binding in place,
otherwise appends a fresh binding. -/
def amInsert : AssocMap → Bytes → MapLeaf → AssocMap
  | [], k, v => [(k, v)]
  | (k2, v2) :: rest, k, v =>
      if k2 = k then (k2, v) :: rest else (k2, v2) :: amInsert rest k v

/-- `toArray` (sequencer.go:225): the first 32 bytes of `b`,
zero padded when `b` is shorter than 32 bytes. -/
def toArray (b : Bytes) : Bytes :=
  b.take 32 ++ List.replicate (32 - b.length) 0

/-- The deserialization step of the loop body of `applyMutations`
(sequencer.go:244-253): look the mutation's index up in the map built
from the fetched leaves; if absent the prior value is nil, otherwise it
is `entry.FromLeafValue(leaf.GetLeafValue())`, which may fail. -/
def priorRes (f : Bytes → Except Unit (Option Entry)) (leafMap : AssocMap)
    (m : SignedKV) : Except Unit (Option Entry) :=
  match amFind leafMap (toArray m.keyValue.key) with
  | none => Except.ok none
  | some leaf => f leaf.leafValue

/-- One iteration of the mutation loop of `applyMutations`
(sequencer.go:243-265) acting on the output map `retMap`:
deserialization failure or a Mutator error skip the mutation
(`continue`), success stores the freshly built leaf at `toArray index`.
`f` is `entry.FromLeafValue`, `mut` is the injected `s.mutator.Mutate`. -/
def applyOne (f : Bytes → Except Unit (Option Entry))
    (mutate : Option Entry → SignedKV → Except Unit Bytes)
    (leafMap : AssocMap) (retMap : AssocMap) (m : SignedKV) : AssocMap :=
  match priorRes f leafMap m with
  | Except.error _ => retMap
  | Except.ok oldValue =>
    match mutate oldValue m with
    | Except.error _ => retMap
    | Except.ok newValue =>
        amInsert retMap (toArray m.keyValue.key)
          { index := m.keyValue.key, leafValue := newValue }

/-- `leafMap` construction of `applyMutations` (sequencer.go:237-240). -/
def buildLeafMap (leaves : List MapLeaf) : AssocMap :=
  leaves.foldl (fun acc l => amInsert acc (toArray l.index) l) []

/-- `applyMutations` (sequencer.go:235-272). The Go function's error
return is always nil, so the embedding returns the leaf list directly. -/
def applyMutations (f : Bytes → Except Unit (Option Entry))
    (mutate : Option Entry → SignedKV → Except Unit Bytes)
    (mutations : List SignedKV) (leaves : List MapLeaf) : List MapLeaf :=
  (mutations.foldl (applyOne f mutate (buildLeafMap leaves)) []).map Prod.snd

/-- Instrumented variant of `applyOne`: behaves identically on the
output map and additionally records, in order, every invocation of the
Mutator together with the prior entry passed to it.  A mutation whose
prior leaf fails to deserialize records no call (the Mutator is not
reached in the source). -/
def applyOneCalls (f : Bytes → Except Unit (Option Entry))
    (mutate : Option Entry → SignedKV → Except Unit Bytes)
    (leafMap : AssocMap)
    (st : AssocMap × List (Option Entry × SignedKV)) (m : SignedKV) :
    AssocMap × List (Option Entry × SignedKV) :=
  match priorRes f leafMap m with
  | Except.error _ => st
  | Except.ok oldValue =>
    let calls := st.2 ++ [(oldValue, m)]
    match mutate oldValue m with
    | Except.error _ => (st.1, calls)
    | Except.ok newValue =>
        (amInsert st.1 (toArray m.keyValue.key)
           { index := m.keyValue.key, leafValue := newValue }, calls)

/-- The output map and Mutator-call trace of `applyMutations`. -/
def applyMutationsTrace (f : Bytes → Except Unit (Option Entry))
    (mutate : Option Entry → SignedKV → Except Unit Bytes)
    (mutations : List SignedKV) (leaves : List MapLeaf) :
    AssocMap × List (Option Entry × SignedKV) :=
  mutations.foldl (applyOneCalls f mutate (buildLeafMap leaves)) ([], [])

/-- The sequence of (prior entry, mutation) arguments with which the
Mutator is invoked while `applyMutations` processes a batch. -/
def mutatorCalls (f : Bytes → Except Unit (Option Entry))
    (mutate : Option Entry → SignedKV → Except Unit Bytes)
    (mutations : List SignedKV) (leaves : List MapLeaf) :
    List (Option Entry × SignedKV) :=
  (applyMutationsTrace f mutate mutations leaves).2

/-- Modelled from the spec (§4.3 step 6), for comparison with the code:
a *single* mutable mapping `cur` is initialized from the fetched leaves,
the prior entry is deserialized from `cur[index]` (so it reflects
earlier successful mutations of the same batch), and on success
`cur[index]` is overwritten.  Records Mutator calls like
`applyOneCalls`. -/
def specCurStep (f : Bytes → Except Unit (Option Entry))
    (mutate : Option Entry → SignedKV → Except Unit Bytes)
    (st : AssocMap × List (Option Entry × SignedKV)) (m : SignedKV) :
    AssocMap × List (Option Entry × SignedKV) :=
  match priorRes f st.1 m with
  | Except.error _ => st
  | Except.ok oldValue =>
    let calls := st.2 ++ [(oldValue, m)]
    match mutate oldValue m with
    | Except.error _ => (st.1, calls)
    | Except.ok newValue =>
        (amInsert st.1 (toArray m.keyValue.key)
           { index := m.keyValue.key, leafValue := newValue }, calls)

/-- Modelled from the spec (§4.3 step 6): the Mutator-call trace of the
specification's folding description of apply-mutations, where `cur` starts from
the fetched leaves and is updated in place. -/
def specCurCalls (f : Bytes → Except Unit (Option Entry))
    (mutate : Option Entry → SignedKV → Except Unit Bytes)
    (mutations : List SignedKV) (leaves : List MapLeaf) :
    List (Option Entry × SignedKV) :=
  (mutations.foldl (specCurStep f mutate) (buildLeafMap leaves, [])).2

/-- The leaf a single mutation would contribute, derived from the loop
body of `applyMutations`: `none` when the mutation is skipped (prior
deserialization failure or Mutator error), otherwise the written
`MapLeaf` carrying the original key and the Mutator's output. -/
def mutOutcome (f : Bytes → Except Unit (Option Entry))
    (mutate : Option Entry → SignedKV → Except Unit Bytes)
    (leafMap : AssocMap) (m : SignedKV) : Option MapLeaf :=
  match priorRes f leafMap m with
  | Except.error _ => none
  | Except.ok oldValue =>
    match mutate oldValue m with
    | Except.error _ => none
    | Except.ok newValue => some { index := m.keyValue.key, leafValue := newValue }

/-- The leaves a batch retains for the 32-byte index `i`:
the `MapLeaf` of the last mutation in batch order whose index reduces to
`i` and that is not skipped, if any.  Used to characterize the output of
`applyMutations`. -/
def lastSuccessLeaf (f : Bytes → Except Unit (Option Entry))
    (mutate : Option Entry → SignedKV → Except Unit Bytes)
    (mutations : List SignedKV) (leaves : List MapLeaf) (i : Bytes) :
    Option MapLeaf :=
  (mutations.filterMap (fun m =>
      if toArray m.keyValue.key = i
      then mutOutcome f mutate (buildLeafMap leaves) m
      else none)).getLast?

/-- The leaves of a produced leaf list whose 32-byte index form is `i`. -/
def writtenAt (out : List MapLeaf) (i : Bytes) : List MapLeaf :=
  out.filter (fun l => toArray l.index = i)

/-- `trillian.SignedMapRoot`, with the one nested metadata field the
sequencer reads (`metadata.highest_fully_completed_seq`) inlined. -/
structure SMR where
  mapRevision : Int
  rootHash : Bytes
  timestampNanos : Int
  highestFullyCompletedSeq : Int
deriving DecidableEq

/-- `trillian.SignedLogRoot` (only the tree size is read). -/
structure SignedLogRoot where
  treeSize : Int
deriving DecidableEq

/-- `trillian.MapLeafInclusion`: a leaf plus its (opaque) inclusion
proof under the prior root. -/
structure MapLeafInclusion where
  leaf : MapLeaf
  proofBlob : Bytes
deriving DecidableEq

/-- `tpb.GetMutationsResponse`, the epoch summary.  Each element of
`mutations` pairs the `SignedKV` update with the inclusion proof
assigned to it (`mutations[i].Proof = m`, sequencer.go:326-329). -/
structure GetMutResp where
  epoch : Int
  smr : SMR
  logRoot : SignedLogRoot
  logConsistency : List Bytes
  logInclusion : List Bytes
  mutations : List (SignedKV × Option MapLeafInclusion)
deriving DecidableEq

/-- The RPCs the sequencer issues, recorded as a trace. -/
inductive RpcEvent where
  | getSignedMapRootEv : RpcEvent
  | readAllEv : Int → RpcEvent
  | getLeavesEv : List Bytes → RpcEvent
  | setLeavesEv : List MapLeaf → Int → RpcEvent
  | queueLeafEv : Bytes → Bytes → RpcEvent
  | getLatestLogRootEv : RpcEvent
  | getConsistencyEv : Int → Int → RpcEvent
  | getInclusionEv : Int → Int → RpcEvent
deriving DecidableEq

/-- The external collaborators of the sequencer, as response oracles:
Trillian map and log clients, the transactional mutation source
(`newMutations`, sequencer.go:203-221, collapsed into one fallible read:
NewTxn/ReadAll/Commit failures all surface as the error case), the entry
codec, the injected Mutator, and the two pure functions `json.Marshal`
(fallible, sequencer.go:430-433) and `sha256.Sum256`. -/
structure World where
  fromLeafValue : Bytes → Except Unit (Option Entry)
  mutate : Option Entry → SignedKV → Except Unit Bytes
  getSignedMapRoot : Except Unit SMR
  readAll : Int → Except Unit (Int × List SignedKV)
  getLeaves : List Bytes → Except Unit (List MapLeafInclusion)
  setLeaves : List MapLeaf → Int → Except Unit SMR
  jsonMarshal : SMR → Option Bytes
  sha256 : Bytes → Bytes
  queueLeaf : Bytes → Bytes → Except Unit Unit
  getLatestSignedLogRoot : Except Unit SignedLogRoot
  getConsistencyProof : Int → Int → Except Unit (List Bytes)
  getInclusionProof : Int → Int → Except Unit (List Bytes)

/-- `queueLogLeaf` (sequencer.go:429-447): serialize the SMR, hash the
serialization, and queue a log leaf carrying both.  A serialization
failure issues no RPC. -/
def queueLogLeaf (w : World) (smr : SMR) : Except Unit Unit × List RpcEvent :=
  match w.jsonMarshal smr with
  | none => (Except.error (), [])
  | some smrJSON =>
    let idHash := w.sha256 smrJSON
    match w.queueLeaf smrJSON idHash with
    | Except.error _ => (Except.error (), [RpcEvent.queueLeafEv smrJSON idHash])
    | Except.ok _ => (Except.ok (), [RpcEvent.queueLeafEv smrJSON idHash])

/-- `logProofs` (sequencer.go:389-426): latest log root, a consistency
proof only when `firstTreeSize ≠ 0`, and an inclusion proof at
`leaf_index = epoch`.  Returns (log root, consistency hashes, inclusion
hashes); a nil consistency response yields the empty hash list. -/
def logProofs (w : World) (firstTreeSize epoch : Int) :
    Except Unit (SignedLogRoot × List Bytes × List Bytes) × List RpcEvent :=
  match w.getLatestSignedLogRoot with
  | Except.error _ => (Except.error (), [RpcEvent.getLatestLogRootEv])
  | Except.ok logRoot =>
    let secondTreeSize := logRoot.treeSize
    if firstTreeSize ≠ 0 then
      match w.getConsistencyProof firstTreeSize secondTreeSize with
      | Except.error _ =>
          (Except.error (),
           [RpcEvent.getLatestLogRootEv,
            RpcEvent.getConsistencyEv firstTreeSize secondTreeSize])
      | Except.ok cons =>
        match w.getInclusionProof epoch secondTreeSize with
        | Except.error _ =>
            (Except.error (),
             [RpcEvent.getLatestLogRootEv,
              RpcEvent.getConsistencyEv firstTreeSize secondTreeSize,
              RpcEvent.getInclusionEv epoch secondTreeSize])
        | Except.ok incl =>
            (Except.ok (logRoot, cons, incl),
             [RpcEvent.getLatestLogRootEv,
              RpcEvent.getConsistencyEv firstTreeSize secondTreeSize,
              RpcEvent.getInclusionEv epoch secondTreeSize])
    else
      match w.getInclusionProof epoch secondTreeSize with
      | Except.error _ =>
          (Except.error (),
           [RpcEvent.getLatestLogRootEv,
            RpcEvent.getInclusionEv epoch secondTreeSize])
      | Except.ok incl =>
          (Except.ok (logRoot, [], incl),
           [RpcEvent.getLatestLogRootEv,
            RpcEvent.getInclusionEv epoch secondTreeSize])

/-- The proof-assignment loop of `CreateEpoch` (sequencer.go:303-329):
`mutations` is built from the whole batch, and `mutations[i].Proof` is
set from the i-th returned inclusion (absent when the map returned
fewer inclusions than there are mutations). -/
def assignProofs (ms : List SignedKV) (incls : List MapLeafInclusion) :
    List (SignedKV × Option MapLeafInclusion) :=
  (List.range ms.length).filterMap (fun i =>
    (ms[i]?).map (fun m => (m, incls[i]?)))

/-- `CreateEpoch` (sequencer.go:275-387), returning the Go result
(`nil` response / response / error) along with the trace of issued
RPCs. -/
def CreateEpoch (w : World) (force : Bool) :
    Except Unit (Option GetMutResp) × List RpcEvent :=
  match w.getSignedMapRoot with
  | Except.error _ => (Except.error (), [RpcEvent.getSignedMapRootEv])
  | Except.ok root =>
    let startSequence := root.highestFullyCompletedSeq
    match w.readAll startSequence with
    | Except.error _ =>
        (Except.error (),
         [RpcEvent.getSignedMapRootEv, RpcEvent.readAllEv startSequence])
    | Except.ok (seq, mRange) =>
      if mRange.isEmpty && !force then
        (Except.ok none,
         [RpcEvent.getSignedMapRootEv, RpcEvent.readAllEv startSequence])
      else
        let indexes := mRange.map (fun m => m.keyValue.key)
        let evs0 := [RpcEvent.getSignedMapRootEv,
                     RpcEvent.readAllEv startSequence,
                     RpcEvent.getLeavesEv indexes]
        match w.getLeaves indexes with
        | Except.error _ => (Except.error (), evs0)
        | Except.ok incls =>
          let leaves := incls.map (fun m => m.leaf)
          let muts := assignProofs mRange incls
          let newLeaves := applyMutations w.fromLeafValue w.mutate mRange leaves
          let evs1 := evs0 ++ [RpcEvent.setLeavesEv newLeaves seq]
          match w.setLeaves newLeaves seq with
          | Except.error _ => (Except.error (), evs1)
          | Except.ok smr2 =>
            let q := queueLogLeaf w smr2
            match q.1 with
            | Except.error _ => (Except.error (), evs1 ++ q.2)
            | Except.ok _ =>
              let respEpoch := smr2.mapRevision - 1
              let p := logProofs w 0 respEpoch
              match p.1 with
              | Except.error _ => (Except.error (), evs1 ++ q.2 ++ p.2)
              | Except.ok (logRoot, logCons, logIncl) =>
                  (Except.ok (some
                    { epoch := smr2.mapRevision
                      smr := smr2
                      logRoot := logRoot
                      logConsistency := logCons
                      logInclusion := logIncl
                      mutations := muts }),
                   evs1 ++ q.2 ++ p.2)

/-- `Initialize` (sequencer.go:105-129): read both roots (failure of
either is fatal); when the log is empty and the map is at revision 0,
queue the (serialized) map root as the log's first leaf; otherwise
no-op. -/
def Initialize (w : World) : Except Unit Unit × List RpcEvent :=
  match w.getLatestSignedLogRoot with
  | Except.error _ => (Except.error (), [RpcEvent.getLatestLogRootEv])
  | Except.ok logRoot =>
    match w.getSignedMapRoot with
    | Except.error _ =>
        (Except.error (),
         [RpcEvent.getLatestLogRootEv, RpcEvent.getSignedMapRootEv])
    | Except.ok mapRoot =>
      if logRoot.treeSize == 0 && mapRoot.mapRevision == 0 then
        let q := queueLogLeaf w mapRoot
        (q.1, [RpcEvent.getLatestLogRootEv, RpcEvent.getSignedMapRootEv] ++ q.2)
      else
        (Except.ok (),
         [RpcEvent.getLatestLogRootEv, RpcEvent.getSignedMapRootEv])

/-- `disseminateMutations` (sequencer.go:459-465): send the value to
every registered channel, in registration order.  Channels are
identifiers; a send is recorded as (channel, message). -/
def disseminateMutations (channels : List Nat) (m : Option GetMutResp) :
    List (Nat × Option GetMutResp) :=
  channels.map (fun c => (c, m))

/-- One iteration of the epoch loop of `StartSigning`
(sequencer.go:163-172): run `CreateEpoch` with the tick value and then
unconditionally hand its result (nil on error or on a skipped epoch) to
`disseminateMutations`. -/
def startSigningIter (w : World) (channels : List Nat) (force : Bool) :
    List RpcEvent × List (Nat × Option GetMutResp) :=
  let r := CreateEpoch w force
  let m := match r.1 with
           | Except.ok o => o
           | Except.error _ => none
  (r.2, disseminateMutations channels m)

/-- The inner loop of `genEpochTicks` (sequencer.go:188-195): for each
firing `now` of the `minInterval` ticker, emit `true` and advance
`last` when `now - last + minElapsed ≥ maxElapsed`, else emit `false`. -/
def genTicksLoop (minElapsed maxElapsed : Int) : Int → List Int → List Bool
  | _, [] => []
  | last, now :: rest =>
      if maxElapsed ≤ now - last + minElapsed
      then true :: genTicksLoop minElapsed maxElapsed now rest
      else false :: genTicksLoop minElapsed maxElapsed last rest

/-- `genEpochTicks` (sequencer.go:178-199): the emitted boolean stream,
given the startup time `now`, the initial `last`, and the firing times
of the `minInterval` ticker.  At startup a single `true` is emitted
(and `last` advanced to `now`) iff `now - last + minElapsed ≥
maxElapsed`; then the ticker loop runs. -/
def genEpochTicks (now last : Int) (minTick : List Int)
    (minElapsed maxElapsed : Int) : List Bool :=
  if maxElapsed ≤ now - last + minElapsed then
    true :: genTicksLoop minElapsed maxElapsed now minTick
  else
    genTicksLoop minElapsed maxElapsed last minTick

/-- One step of the tick automaton as the spec words it: at firing `t`,
emit `true` and set `last := t` when `t - last + minInterval ≥
maxInterval`, else emit `false` keeping `last`. -/
def tickStep (minI maxI last t : Int) : Bool × Int :=
  if maxI ≤ t - last + minI then (true, t) else (false, last)

/-- The spec's tick automaton iterated over the firing times. -/
def specTicksFrom (minI maxI : Int) : Int → List Int → List Bool
  | _, [] => []
  | last, t :: rest =>
      let s := tickStep minI maxI last t
      s.1 :: specTicksFrom minI maxI s.2 rest

/-- The spec's full tick sequence: a single-shot startup `true` iff
`now - last + minInterval ≥ maxInterval` (updating `last := now`),
followed by the automaton driven by the periodic clock. -/
def specTicks (minI maxI now last : Int) (ts : List Int) : List Bool :=
  let s := tickStep minI maxI last now
  (if s.1 then [true] else []) ++ specTicksFrom minI maxI s.2 ts

/-- The arguments of the `QueueLeaf` RPCs in a trace:
(leaf_value, leaf_identity_hash) pairs. -/
def queueLeafArgs (tr : List RpcEvent) : List (Bytes × Bytes) :=
  tr.filterMap (fun e =>
    match e with
    | RpcEvent.queueLeafEv v h => some (v, h)
    | _ => none)

/-- The index lists of the `GetLeaves` RPCs in a trace. -/
def getLeavesArgs (tr : List RpcEvent) : List (List Bytes) :=
  tr.filterMap (fun e =>
    match e with
    | RpcEvent.getLeavesEv ix => some ix
    | _ => none)

/-- The leaf lists of the `SetLeaves` RPCs in a trace. -/
def setLeavesArgs (tr : List RpcEvent) : List (List MapLeaf) :=
  tr.filterMap (fun e =>
    match e with
    | RpcEvent.setLeavesEv ls _ => some ls
    | _ => none)

/-- Well-formedness of the output map of `applyMutations`: every
binding's key is the 32-byte form of the stored leaf's index. -/
def amWF (m : AssocMap) : Prop := ∀ p ∈ m, p.1 = toArray p.2.index

/-- The keys of an association map are pairwise distinct. -/
def amKeysNodup (m : AssocMap) : Prop := (m.map Prod.fst).Nodup

/-- A `SignedKV` with the given key and value and no signatures. -/
def kv (k v : Bytes) : SignedKV := { keyValue := { key := k, value := v }, sigs := [] }

/-- Entry codec that deserializes every byte string (to itself). -/
def fromOk : Bytes → Except Unit (Option Entry) := fun b => Except.ok (some b)

/-- Mutator that accepts every update, producing the update's value. -/
def mutateVal : Option Entry → SignedKV → Except Unit Bytes :=
  fun _ m => Except.ok m.keyValue.value

/-- Mutator that accepts every update, always producing `[42]`. -/
def mutate42 : Option Entry → SignedKV → Except Unit Bytes :=
  fun _ _ => Except.ok [42]

/-- A concrete world in which every collaborator succeeds.  The batch
holds two mutations with the same key `[1]`. -/
def wBase : World :=
  { fromLeafValue := fromOk
    mutate := mutateVal
    getSignedMapRoot := Except.ok
      { mapRevision := 1, rootHash := [9], timestampNanos := 0,
        highestFullyCompletedSeq := 3 }
    readAll := fun _ => Except.ok (7, [kv [1] [10], kv [1] [11]])
    getLeaves := fun _ => Except.ok []
    setLeaves := fun _ _ => Except.ok
      { mapRevision := 2, rootHash := [8], timestampNanos := 5,
        highestFullyCompletedSeq := 7 }
    jsonMarshal := fun s => some (s.mapRevision.toNat :: s.rootHash)
    sha256 := fun b => 99 :: b
    queueLeaf := fun _ _ => Except.ok ()
    getLatestSignedLogRoot := Except.ok { treeSize := 4 }
    getConsistencyProof := fun _ _ => Except.ok [[1]]
    getInclusionProof := fun _ _ => Except.ok [[2]] }

/-- `wBase` with an empty mutation batch. -/
def wEmptyBatch : World := { wBase with readAll := fun _ => Except.ok (3, []) }

/-- `wBase` with an empty log and the map at revision 0 (bootstrap). -/
def wInitEmpty : World :=
  { wBase with
    getLatestSignedLogRoot := Except.ok { treeSize := 0 }
    getSignedMapRoot := Except.ok
      { mapRevision := 0, rootHash := [7], timestampNanos := 0,
        highestFullyCompletedSeq := 0 } }

/-- A 33-byte key: 33 zero bytes. -/
def keyA : Bytes := List.replicate 33 0

/-- A different 33-byte key agreeing with `keyA` on its first 32
bytes. -/
def keyB : Bytes := List.replicate 32 0 ++ [1]

/-- `wBase` with an empty log but the map already at revision 5 (the
trees disagree on emptiness). -/
def wInitDisagree : World :=
  { wBase with
    getLatestSignedLogRoot := Except.ok { treeSize := 0 }
    getSignedMapRoot := Except.ok
      { mapRevision := 5, rootHash := [7], timestampNanos := 0,
        highestFullyCompletedSeq := 0 } }

theorem amFind_amInsert_self (m : AssocMap) (k : Bytes) (v : MapLeaf) :
    amFind (amInsert m k v) k = some v := by
  induction m with
  | nil => simp [amInsert, amFind]
  | cons p rest ih =>
    obtain ⟨k2, v2⟩ := p
    by_cases h : k2 = k
    · simp [amInsert, h, amFind]
    · simp [amInsert, h, amFind, ih]

theorem amFind_amInsert_ne (m : AssocMap) (k i : Bytes) (v : MapLeaf)
    (h : i ≠ k) : amFind (amInsert m k v) i = amFind m i := by
  have h2 : ¬(k = i) := fun hh => h hh.symm
  induction m with
  | nil => simp [amInsert, amFind, h2]
  | cons p rest ih =>
    obtain ⟨k2, v2⟩ := p
    by_cases h3 : k2 = k
    · subst h3
      simp [amInsert, amFind, h2]
    · simp [amInsert, h3, amFind, ih]

theorem amInsert_length_le (m : AssocMap) (k : Bytes) (v : MapLeaf) :
    (amInsert m k v).length ≤ m.length + 1 := by
  induction m with
  | nil => simp [amInsert]
  | cons p rest ih =>
    obtain ⟨k2, v2⟩ := p
    by_cases h : k2 = k
    · simp [amInsert, h]
    · simp only [amInsert, if_neg h, List.length_cons]
      omega

theorem mem_keys_amInsert (m : AssocMap) (k a : Bytes) (v : MapLeaf)
    (h : a ∈ (amInsert m k v).map Prod.fst) :
    a ∈ m.map Prod.fst ∨ a = k := by
  induction m with
  | nil => simpa [amInsert] using h
  | cons p rest ih =>
    obtain ⟨k2, v2⟩ := p
    by_cases h2 : k2 = k
    · simp only [amInsert, if_pos h2, List.map_cons, List.mem_cons] at h ⊢
      tauto
    · simp only [amInsert, if_neg h2, List.map_cons, List.mem_cons] at h ⊢
      rcases h with h | h
      · tauto
      · rcases ih h with h3 | h3 <;> tauto

theorem amKeysNodup_amInsert (m : AssocMap) (k : Bytes) (v : MapLeaf)
    (h : amKeysNodup m) : amKeysNodup (amInsert m k v) := by
  induction m with
  | nil => simp [amInsert, amKeysNodup]
  | cons p rest ih =>
    obtain ⟨k2, v2⟩ := p
    unfold amKeysNodup at h
    simp only [List.map_cons, List.nodup_cons] at h
    by_cases h2 : k2 = k
    · unfold amKeysNodup
      simp only [amInsert, if_pos h2, List.map_cons, List.nodup_cons]
      exact h
    · unfold amKeysNodup
      simp only [amInsert, if_neg h2, List.map_cons, List.nodup_cons]
      refine ⟨fun hmem => ?_, ih h.2⟩
      rcases mem_keys_amInsert rest k k2 v hmem with h3 | h3
      · exact h.1 h3
      · exact h2 h3

theorem amWF_amInsert (m : AssocMap) (k : Bytes) (v : MapLeaf)
    (hwf : amWF m) (hk : k = toArray v.index) : amWF (amInsert m k v) := by
  induction m with
  | nil =>
    intro p hp
    simp only [amInsert, List.mem_singleton] at hp
    subst hp; exact hk
  | cons q rest ih =>
    obtain ⟨k2, v2⟩ := q
    have hwfrest : amWF rest := fun p hp => hwf p (List.mem_cons_of_mem _ hp)
    by_cases h2 : k2 = k
    · intro p hp
      simp only [amInsert, if_pos h2, List.mem_cons] at hp
      rcases hp with hp | hp
      · subst hp; simpa [h2] using hk
      · exact hwf p (List.mem_cons_of_mem _ hp)
    · intro p hp
      simp only [amInsert, if_neg h2, List.mem_cons] at hp
      rcases hp with hp | hp
      · subst hp; exact hwf _ (List.mem_cons_self _ _)
      · exact ih hwfrest p hp

theorem values_filter_of_not_mem (m : AssocMap) (i : Bytes) (hwf : amWF m)
    (h : i ∉ m.map Prod.fst) :
    (m.map Prod.snd).filter (fun l => toArray l.index = i) = [] := by
  induction m with
  | nil => simp
  | cons p rest ih =>
    obtain ⟨k, v⟩ := p
    simp only [List.map_cons, List.mem_cons] at h
    push_neg at h
    have hk : k = toArray v.index := hwf _ (List.mem_cons_self _ _)
    have hne : ¬(toArray v.index = i) := by
      intro hh; exact h.1 (hk.trans hh).symm
    have hwfrest : amWF rest := fun p hp => hwf p (List.mem_cons_of_mem _ hp)
    simp only [List.map_cons, List.filter_cons, decide_eq_true_eq]
    rw [if_neg hne]
    exact ih hwfrest h.2

theorem values_filter_eq_find (m : AssocMap) (i : Bytes) (hwf : amWF m)
    (hnd : amKeysNodup m) :
    (m.map Prod.snd).filter (fun l => toArray l.index = i) =
      (amFind m i).toList := by
  induction m with
  | nil => simp [amFind]
  | cons p rest ih =>
    obtain ⟨k, v⟩ := p
    have hk : k = toArray v.index := hwf _ (List.mem_cons_self _ _)
    have hwfrest : amWF rest := fun p hp => hwf p (List.mem_cons_of_mem _ hp)
    unfold amKeysNodup at hnd
    simp only [List.map_cons, List.nodup_cons] at hnd
    by_cases h : k = i
    · subst h
      have hvk : toArray v.index = k := hk.symm
      simp only [List.map_cons, List.filter_cons, decide_eq_true_eq]
      rw [if_pos hvk]
      rw [values_filter_of_not_mem rest k hwfrest hnd.1]
      simp [amFind]
    · have hne : ¬(toArray v.index = i) := fun hh => h (hk.trans hh)
      simp only [List.map_cons, List.filter_cons, decide_eq_true_eq, amFind]
      rw [if_neg hne, if_neg h]
      exact ih hwfrest hnd.2

theorem applyOne_eq_outcome (f : Bytes → Except Unit (Option Entry))
    (mutate : Option Entry → SignedKV → Except Unit Bytes)
    (leafMap retMap : AssocMap) (m : SignedKV) :
    applyOne f mutate leafMap retMap m =
      match mutOutcome f mutate leafMap m with
      | none => retMap
      | some l => amInsert retMap (toArray m.keyValue.key) l := by
  unfold applyOne mutOutcome
  cases priorRes f leafMap m with
  | error e => rfl
  | ok oldValue =>
    dsimp only []
    cases mutate oldValue m with
    | error e => rfl
    | ok newValue => rfl

theorem mutOutcome_index (f : Bytes → Except Unit (Option Entry))
    (mutate : Option Entry → SignedKV → Except Unit Bytes)
    (leafMap : AssocMap) (m : SignedKV) (l : MapLeaf)
    (h : mutOutcome f mutate leafMap m = some l) :
    l.index = m.keyValue.key := by
  unfold mutOutcome at h
  rcases hp : priorRes f leafMap m with e | oldValue
  · rw [hp] at h; simp at h
  · rw [hp] at h
    dsimp only [] at h
    rcases hm : mutate oldValue m with e | nv
    · rw [hm] at h; simp at h
    · rw [hm] at h
      simp only [Option.some.injEq] at h
      rw [← h]

theorem amWF_foldl (f : Bytes → Except Unit (Option Entry))
    (mutate : Option Entry → SignedKV → Except Unit Bytes)
    (leafMap : AssocMap) (ms : List SignedKV) (r : AssocMap)
    (hr : amWF r) : amWF (ms.foldl (applyOne f mutate leafMap) r) := by
  induction ms generalizing r with
  | nil => exact hr
  | cons m ms ih =>
    simp only [List.foldl_cons]
    apply ih
    rw [applyOne_eq_outcome]
    cases h : mutOutcome f mutate leafMap m with
    | none => exact hr
    | some l =>
      have hidx : l.index = m.keyValue.key := mutOutcome_index f mutate leafMap m l h
      exact amWF_amInsert r _ l hr (by rw [hidx])

theorem amKeysNodup_foldl (f : Bytes → Except Unit (Option Entry))
    (mutate : Option Entry → SignedKV → Except Unit Bytes)
    (leafMap : AssocMap) (ms : List SignedKV) (r : AssocMap)
    (hr : amKeysNodup r) :
    amKeysNodup (ms.foldl (applyOne f mutate leafMap) r) := by
  induction ms generalizing r with
  | nil => exact hr
  | cons m ms ih =>
    simp only [List.foldl_cons]
    apply ih
    rw [applyOne_eq_outcome]
    cases mutOutcome f mutate leafMap m with
    | none => exact hr
    | some l => exact amKeysNodup_amInsert r _ l hr

theorem length_foldl_le (f : Bytes → Except Unit (Option Entry))
    (mutate : Option Entry → SignedKV → Except Unit Bytes)
    (leafMap : AssocMap) (ms : List SignedKV) (r : AssocMap) :
    (ms.foldl (applyOne f mutate leafMap) r).length ≤ r.length + ms.length := by
  induction ms generalizing r with
  | nil => simp
  | cons m ms ih =>
    simp only [List.foldl_cons, List.length_cons]
    calc (ms.foldl (applyOne f mutate leafMap) (applyOne f mutate leafMap r m)).length
        ≤ (applyOne f mutate leafMap r m).length + ms.length := ih _
      _ ≤ r.length + 1 + ms.length := by
          have : (applyOne f mutate leafMap r m).length ≤ r.length + 1 := by
            rw [applyOne_eq_outcome]
            cases mutOutcome f mutate leafMap m with
            | none => dsimp only; omega
            | some l => exact amInsert_length_le r _ l
          omega
      _ = r.length + (ms.length + 1) := by omega

theorem amFind_foldl (f : Bytes → Except Unit (Option Entry))
    (mutate : Option Entry → SignedKV → Except Unit Bytes)
    (leafMap : AssocMap) (ms : List SignedKV) (r : AssocMap) (i : Bytes) :
    amFind (ms.foldl (applyOne f mutate leafMap) r) i =
      match (ms.filterMap (fun m =>
          if toArray m.keyValue.key = i
          then mutOutcome f mutate leafMap m
          else none)).getLast? with
      | some l => some l
      | none => amFind r i := by
  induction ms using List.reverseRecOn with
  | nil => simp
  | append_singleton ms m ih =>
    rw [List.foldl_append, List.filterMap_append]
    simp only [List.foldl_cons, List.foldl_nil, List.filterMap_cons,
      List.filterMap_nil]
    by_cases hi : toArray m.keyValue.key = i
    · rw [if_pos hi]
      cases ho : mutOutcome f mutate leafMap m with
      | none =>
        simp only [applyOne_eq_outcome, ho, List.append_nil]
        exact ih
      | some l =>
        simp only [applyOne_eq_outcome, ho, List.getLast?_concat, hi]
        exact amFind_amInsert_self _ i l
    · rw [if_neg hi]
      simp only [List.append_nil]
      cases ho : mutOutcome f mutate leafMap m with
      | none =>
        simp only [applyOne_eq_outcome, ho]
        exact ih
      | some l =>
        simp only [applyOne_eq_outcome, ho]
        rw [amFind_amInsert_ne _ _ _ _ (fun hh => hi hh.symm)]
        exact ih

theorem calls_foldl (f : Bytes → Except Unit (Option Entry))
    (mutate : Option Entry → SignedKV → Except Unit Bytes)
    (leafMap : AssocMap) (ms : List SignedKV) (r : AssocMap)
    (cs : List (Option Entry × SignedKV)) :
    (ms.foldl (applyOneCalls f mutate leafMap) (r, cs)).2 =
      cs ++ ms.filterMap (fun m =>
        match priorRes f leafMap m with
        | Except.ok o => some (o, m)
        | Except.error _ => none) := by
  induction ms generalizing r cs with
  | nil => simp
  | cons m ms ih =>
    simp only [List.foldl_cons, List.filterMap_cons]
    cases hp : priorRes f leafMap m with
    | error e =>
      have hstep : applyOneCalls f mutate leafMap (r, cs) m = (r, cs) := by
        unfold applyOneCalls; rw [hp]
      rw [hstep, ih]
    | ok o =>
      cases hm : mutate o m with
      | error e =>
        have hstep : applyOneCalls f mutate leafMap (r, cs) m
            = (r, cs ++ [(o, m)]) := by
          unfold applyOneCalls; rw [hp]; dsimp only []; rw [hm]
        rw [hstep, ih]
        simp
      | ok nv =>
        have hstep : applyOneCalls f mutate leafMap (r, cs) m
            = (amInsert r (toArray m.keyValue.key)
                 { index := m.keyValue.key, leafValue := nv },
               cs ++ [(o, m)]) := by
          unfold applyOneCalls; rw [hp]; dsimp only []; rw [hm]
        rw [hstep, ih]
        simp

theorem trace_fst_foldl (f : Bytes → Except Unit (Option Entry))
    (mutate : Option Entry → SignedKV → Except Unit Bytes)
    (leafMap : AssocMap) (ms : List SignedKV) (r : AssocMap)
    (cs : List (Option Entry × SignedKV)) :
    (ms.foldl (applyOneCalls f mutate leafMap) (r, cs)).1 =
      ms.foldl (applyOne f mutate leafMap) r := by
  induction ms generalizing r cs with
  | nil => rfl
  | cons m ms ih =>
    simp only [List.foldl_cons]
    have hstep : applyOneCalls f mutate leafMap (r, cs) m
        = (applyOne f mutate leafMap r m,
           (applyOneCalls f mutate leafMap (r, cs) m).2) := by
      unfold applyOneCalls applyOne
      cases priorRes f leafMap m with
      | error e => rfl
      | ok o =>
        dsimp only []
        cases mutate o m with
        | error e => rfl
        | ok nv => rfl
    rw [hstep, ih]

theorem queueLeafArgs_append (t1 t2 : List RpcEvent) :
    queueLeafArgs (t1 ++ t2) = queueLeafArgs t1 ++ queueLeafArgs t2 := by
  unfold queueLeafArgs
  exact List.filterMap_append _ _ _

theorem queueLeafArgs_logProofs (w : World) (a b : Int) :
    queueLeafArgs (logProofs w a b).2 = [] := by
  unfold logProofs
  cases hr : w.getLatestSignedLogRoot with
  | error e => rfl
  | ok lr =>
    dsimp only []
    by_cases ha : a ≠ 0
    · rw [if_pos ha]
      cases hc : w.getConsistencyProof a lr.treeSize with
      | error e => rfl
      | ok c =>
        dsimp only []
        cases hi : w.getInclusionProof b lr.treeSize with
        | error e => rfl
        | ok i => rfl
    · rw [if_neg ha]
      cases hi : w.getInclusionProof b lr.treeSize with
      | error e => rfl
      | ok i => rfl

theorem genTicksLoop_eq_specTicksFrom (minI maxI : Int) (ts : List Int)
    (last : Int) :
    genTicksLoop minI maxI last ts = specTicksFrom minI maxI last ts := by
  induction ts generalizing last with
  | nil => rfl
  | cons t rest ih =>
    simp only [genTicksLoop, specTicksFrom, tickStep]
    by_cases h : maxI ≤ t - last + minI
    · simp only [if_pos h]
      rw [ih]
    · simp only [if_neg h]
      rw [ih]

/-- C2: for every epoch, the list of map leaves produced by
`applyMutations` contains each index at most once (the 32-byte index
forms of the output are pairwise distinct), and the leaf retained for an
index is exactly the one produced by the last mutation in batch order
for that index whose Mutator application succeeded (skipped mutations —
prior-deserialization failures and Mutator errors — contribute
nothing). -/
theorem C2_applyMutations_dedup_last_wins
    (f : Bytes → Except Unit (Option Entry))
    (mutate : Option Entry → SignedKV → Except Unit Bytes)
    (ms : List SignedKV) (leaves : List MapLeaf) (i : Bytes) :
    ((applyMutations f mutate ms leaves).map (fun l => toArray l.index)).Nodup
    ∧ writtenAt (applyMutations f mutate ms leaves) i
        = (lastSuccessLeaf f mutate ms leaves i).toList := by
  have hnil : amWF ([] : AssocMap) := by intro p hp; simp at hp
  have hwf : amWF (ms.foldl (applyOne f mutate (buildLeafMap leaves)) []) :=
    amWF_foldl f mutate _ ms [] hnil
  have hnd : amKeysNodup (ms.foldl (applyOne f mutate (buildLeafMap leaves)) []) :=
    amKeysNodup_foldl f mutate _ ms [] (by simp [amKeysNodup])
  constructor
  · unfold applyMutations
    rw [List.map_map]
    have heq : (ms.foldl (applyOne f mutate (buildLeafMap leaves)) []).map
          ((fun l => toArray l.index) ∘ Prod.snd)
        = (ms.foldl (applyOne f mutate (buildLeafMap leaves)) []).map Prod.fst := by
      apply List.map_congr_left
      intro p hp
      exact (hwf p hp).symm
    rw [heq]
    exact hnd
  · unfold applyMutations writtenAt
    rw [values_filter_eq_find _ _ hwf hnd, amFind_foldl]
    unfold lastSuccessLeaf
    cases (ms.filterMap (fun m =>
        if toArray m.keyValue.key = i
        then mutOutcome f mutate (buildLeafMap leaves) m
        else none)).getLast? with
    | none => rfl
    | some l => rfl

/-- C4: a batch in which the k-th mutation draws a Mutator validation
error produces exactly the leaves of the batch without that mutation
(mutations before and after it are unaffected), hence at most N-1
leaves for a batch of N mutations; `applyMutations` itself does not
fail. -/
theorem C4_mutator_error_skips_only_that_mutation
    (f : Bytes → Except Unit (Option Entry))
    (mutate : Option Entry → SignedKV → Except Unit Bytes)
    (pre post : List SignedKV) (mk : SignedKV) (leaves : List MapLeaf)
    (old : Option Entry)
    (hprior : priorRes f (buildLeafMap leaves) mk = Except.ok old)
    (hfail : mutate old mk = Except.error ()) :
    applyMutations f mutate (pre ++ mk :: post) leaves
      = applyMutations f mutate (pre ++ post) leaves
    ∧ (applyMutations f mutate (pre ++ mk :: post) leaves).length
        ≤ pre.length + post.length := by
  have hskip : ∀ r, applyOne f mutate (buildLeafMap leaves) r mk = r := by
    intro r
    unfold applyOne
    rw [hprior]
    dsimp only []
    rw [hfail]
  have hfold : (pre ++ mk :: post).foldl
        (applyOne f mutate (buildLeafMap leaves)) []
      = (pre ++ post).foldl (applyOne f mutate (buildLeafMap leaves)) [] := by
    rw [List.foldl_append, List.foldl_append, List.foldl_cons, hskip]
  constructor
  · unfold applyMutations
    rw [hfold]
  · unfold applyMutations
    rw [hfold]
    have := length_foldl_le f mutate (buildLeafMap leaves) (pre ++ post) []
    simp only [List.length_nil, List.length_append, List.length_map] at this ⊢
    omega

/-- Closed witness for C4: a three-mutation batch whose middle mutation
is rejected by the Mutator yields exactly the two leaves of the outer
mutations. -/
theorem C4_witness :
    applyMutations fromOk
        (fun _ m => if m.keyValue.key = [2] then Except.error ()
                    else Except.ok m.keyValue.value)
        ([kv [1] [10]] ++ kv [2] [20] :: [kv [3] [30]]) []
      = applyMutations fromOk
        (fun _ m => if m.keyValue.key = [2] then Except.error ()
                    else Except.ok m.keyValue.value)
        ([kv [1] [10]] ++ [kv [3] [30]]) []
    ∧ (applyMutations fromOk
        (fun _ m => if m.keyValue.key = [2] then Except.error ()
                    else Except.ok m.keyValue.value)
        ([kv [1] [10]] ++ kv [2] [20] :: [kv [3] [30]]) []).length ≤ 2 :=
  C4_mutator_error_skips_only_that_mutation fromOk
    (fun _ m => if m.keyValue.key = [2] then Except.error ()
                else Except.ok m.keyValue.value)
    [kv [1] [10]] [kv [3] [30]] (kv [2] [20]) [] none (by rfl) (by rfl)

/-- C9: when the stored leaf fetched for a mutation's index exists but
fails to deserialize, `applyMutations` skips that mutation entirely —
the Mutator is not invoked for it (the call trace is unchanged) and
nothing is written for it — and the remaining mutations of the batch
are processed exactly as if the failing mutation were absent. -/
theorem C9_deserialize_failure_skips_mutation
    (f : Bytes → Except Unit (Option Entry))
    (mutate : Option Entry → SignedKV → Except Unit Bytes)
    (pre post : List SignedKV) (mk : SignedKV) (leaves : List MapLeaf)
    (leaf : MapLeaf)
    (hfound : amFind (buildLeafMap leaves) (toArray mk.keyValue.key)
        = some leaf)
    (hbad : f leaf.leafValue = Except.error ()) :
    applyMutationsTrace f mutate (pre ++ mk :: post) leaves
      = applyMutationsTrace f mutate (pre ++ post) leaves
    ∧ applyMutations f mutate (pre ++ mk :: post) leaves
      = applyMutations f mutate (pre ++ post) leaves := by
  have hpr : priorRes f (buildLeafMap leaves) mk = Except.error () := by
    unfold priorRes
    rw [hfound]
    dsimp only []
    exact hbad
  have hskipc : ∀ st, applyOneCalls f mutate (buildLeafMap leaves) st mk = st := by
    intro st
    unfold applyOneCalls
    rw [hpr]
  have hskip : ∀ r, applyOne f mutate (buildLeafMap leaves) r mk = r := by
    intro r
    unfold applyOne
    rw [hpr]
  constructor
  · unfold applyMutationsTrace
    rw [List.foldl_append, List.foldl_append, List.foldl_cons, hskipc]
  · unfold applyMutations
    rw [List.foldl_append, List.foldl_append, List.foldl_cons, hskip]

/-- Closed witness for C9: with a stored leaf at index `[1]` whose value
`[0]` fails to deserialize, the batch behaves as if its first mutation
(at index `[1]`) were absent: the second mutation (index `[3]`) is
processed normally. -/
theorem C9_witness :
    applyMutationsTrace (fun b => if b = [0] then Except.error ()
                                  else Except.ok (some b)) mutateVal
        ([] ++ kv [1] [10] :: [kv [3] [30]]) [{ index := [1], leafValue := [0] }]
      = applyMutationsTrace (fun b => if b = [0] then Except.error ()
                                      else Except.ok (some b)) mutateVal
        ([] ++ [kv [3] [30]]) [{ index := [1], leafValue := [0] }]
    ∧ applyMutations (fun b => if b = [0] then Except.error ()
                               else Except.ok (some b)) mutateVal
        ([] ++ kv [1] [10] :: [kv [3] [30]]) [{ index := [1], leafValue := [0] }]
      = applyMutations (fun b => if b = [0] then Except.error ()
                                 else Except.ok (some b)) mutateVal
        ([] ++ [kv [3] [30]]) [{ index := [1], leafValue := [0] }] :=
  C9_deserialize_failure_skips_mutation
    (fun b => if b = [0] then Except.error () else Except.ok (some b))
    mutateVal [] [kv [3] [30]] (kv [1] [10])
    [{ index := [1], leafValue := [0] }] { index := [1], leafValue := [0] }
    (by rfl) (by rfl)

/-- C1 (amended): for each mutation in original sequence order, the
prior Entry passed to the Mutator is the deserialization of the
*originally fetched* leaf for its index (nil when absent) — it is
independent of the results of earlier mutations of the same batch, the
loop reads `leafMap`, never `retMap` — and the result of a successful
mutation overwrites the entry of the separate output map `retMap` at
the mutation's 32-byte index. -/
theorem C1_prior_from_fetched_leaves
    (f : Bytes → Except Unit (Option Entry))
    (mutate : Option Entry → SignedKV → Except Unit Bytes)
    (ms : List SignedKV) (leaves : List MapLeaf) :
    mutatorCalls f mutate ms leaves
      = ms.filterMap (fun m =>
          match priorRes f (buildLeafMap leaves) m with
          | Except.ok o => some (o, m)
          | Except.error _ => none)
    ∧ ∀ pre m l, mutOutcome f mutate (buildLeafMap leaves) m = some l →
        (applyMutationsTrace f mutate (pre ++ [m]) leaves).1
          = amInsert (applyMutationsTrace f mutate pre leaves).1
              (toArray m.keyValue.key) l := by
  constructor
  · unfold mutatorCalls applyMutationsTrace
    rw [calls_foldl]
    simp
  · intro pre m l hl
    unfold applyMutationsTrace
    rw [trace_fst_foldl, trace_fst_foldl, List.foldl_append, List.foldl_cons,
      List.foldl_nil, applyOne_eq_outcome, hl]

/-- Closed witness for C1's amended statement at a one-mutation batch
over an empty leaf set. -/
theorem C1_witness :
    mutatorCalls fromOk mutateVal [kv [1] [5]] []
      = [kv [1] [5]].filterMap (fun m =>
          match priorRes fromOk (buildLeafMap []) m with
          | Except.ok o => some (o, m)
          | Except.error _ => none)
    ∧ (applyMutationsTrace fromOk mutateVal ([] ++ [kv [1] [5]]) []).1
      = amInsert (applyMutationsTrace fromOk mutateVal [] []).1
          (toArray (kv [1] [5]).keyValue.key)
          { index := [1], leafValue := [5] } := by
  have h := C1_prior_from_fetched_leaves fromOk mutateVal [kv [1] [5]] []
  exact ⟨h.1, h.2 [] (kv [1] [5]) { index := [1], leafValue := [5] } (by rfl)⟩

/-- C1 counterexample: with no fetched leaves, a Mutator that always
succeeds producing `[42]`, and a batch of two mutations on the same key
`[1]`, the code passes `none` as the prior entry to the *second*
Mutator call (the call trace is obtained from the fetched leaves only),
whereas the claimed fold over a current-value mapping `cur` would pass
the deserialization `some [42]` of the first mutation's result. -/
theorem C1_counterexample :
    mutatorCalls fromOk mutate42 [kv [1] [], kv [1] []] []
      = [(none, kv [1] []), (none, kv [1] [])]
    ∧ specCurCalls fromOk mutate42 [kv [1] [], kv [1] []] []
      = [(none, kv [1] []), (some [42], kv [1] [])]
    ∧ mutatorCalls fromOk mutate42 [kv [1] [], kv [1] []] []
      ≠ specCurCalls fromOk mutate42 [kv [1] [], kv [1] []] [] := by
  refine ⟨by rfl, by rfl, by decide⟩

/-- C10: the 32-byte index form is the key zero-padded when shorter
than 32 bytes and truncated to its first 32 bytes when longer; lookup
and per-epoch dedup use this form while the written `MapLeaf` keeps the
original unmodified key in its `Index` field: two successful mutations
whose distinct keys agree on their first 32 bytes collide to a single
written leaf, the one of the later mutation, carrying that mutation's
original key. -/
theorem C10_index_normalization
    (b : Bytes)
    (f : Bytes → Except Unit (Option Entry))
    (mutate : Option Entry → SignedKV → Except Unit Bytes)
    (leaves : List MapLeaf) (m1 m2 : SignedKV)
    (old1 old2 : Option Entry) (v1 v2 : Bytes)
    (hcol : toArray m1.keyValue.key = toArray m2.keyValue.key)
    (h1 : priorRes f (buildLeafMap leaves) m1 = Except.ok old1)
    (h1m : mutate old1 m1 = Except.ok v1)
    (h2 : priorRes f (buildLeafMap leaves) m2 = Except.ok old2)
    (h2m : mutate old2 m2 = Except.ok v2) :
    (toArray b).length = 32
    ∧ (32 ≤ b.length → toArray b = b.take 32)
    ∧ (b.length ≤ 32 → toArray b = b ++ List.replicate (32 - b.length) 0)
    ∧ applyMutations f mutate [m1, m2] leaves
        = [{ index := m2.keyValue.key, leafValue := v2 }] := by
  have ho1 : mutOutcome f mutate (buildLeafMap leaves) m1
      = some { index := m1.keyValue.key, leafValue := v1 } := by
    unfold mutOutcome; rw [h1]; dsimp only []; rw [h1m]
  have ho2 : mutOutcome f mutate (buildLeafMap leaves) m2
      = some { index := m2.keyValue.key, leafValue := v2 } := by
    unfold mutOutcome; rw [h2]; dsimp only []; rw [h2m]
  refine ⟨?_, ?_, ?_, ?_⟩
  · unfold toArray
    simp only [List.length_append, List.length_take, List.length_replicate]
    omega
  · intro hb
    unfold toArray
    have h0 : 32 - b.length = 0 := by omega
    rw [h0]
    simp
  · intro hb
    unfold toArray
    rw [List.take_of_length_le hb]
  · unfold applyMutations
    simp only [List.foldl_cons, List.foldl_nil, applyOne_eq_outcome, ho1, ho2]
    rw [← hcol]
    simp [amInsert]

/-- Closed witness for C10: key `[1]` is zero-padded; the 33-byte keys
`keyA` and `keyB` differ but share their first 32 bytes, so their two
mutations produce the single leaf of the second mutation, indexed by
the original 33-byte `keyB`. -/
theorem C10_witness :
    (toArray [1]).length = 32
    ∧ toArray [1] = [1] ++ List.replicate 31 0
    ∧ keyA ≠ keyB
    ∧ applyMutations fromOk mutateVal [kv keyA [10], kv keyB [20]] []
        = [{ index := keyB, leafValue := [20] }] := by
  have h := C10_index_normalization [1] fromOk mutateVal []
    (kv keyA [10]) (kv keyB [20]) none none [10] [20]
    (by rfl) (by rfl) (by rfl) (by rfl) (by rfl)
  exact ⟨h.1, h.2.2.1 (by decide), by decide, h.2.2.2⟩

theorem getLeavesArgs_append (t1 t2 : List RpcEvent) :
    getLeavesArgs (t1 ++ t2) = getLeavesArgs t1 ++ getLeavesArgs t2 := by
  unfold getLeavesArgs
  exact List.filterMap_append _ _ _

theorem getLeavesArgs_queueLogLeaf (w : World) (s : SMR) :
    getLeavesArgs (queueLogLeaf w s).2 = [] := by
  unfold queueLogLeaf
  cases hj : w.jsonMarshal s with
  | none => rfl
  | some j =>
    dsimp only []
    cases hq : w.queueLeaf j (w.sha256 j) with
    | error e => rfl
    | ok u => rfl

theorem getLeavesArgs_logProofs (w : World) (a b : Int) :
    getLeavesArgs (logProofs w a b).2 = [] := by
  unfold logProofs
  cases hr : w.getLatestSignedLogRoot with
  | error e => rfl
  | ok lr =>
    dsimp only []
    by_cases ha : a ≠ 0
    · rw [if_pos ha]
      cases hc : w.getConsistencyProof a lr.treeSize with
      | error e => rfl
      | ok c =>
        dsimp only []
        cases hi : w.getInclusionProof b lr.treeSize with
        | error e => rfl
        | ok i => rfl
    · rw [if_neg ha]
      cases hi : w.getInclusionProof b lr.treeSize with
      | error e => rfl
      | ok i => rfl

theorem queueLogLeaf_trace (w : World) (s : SMR) (j : Bytes)
    (hj : w.jsonMarshal s = some j) :
    (queueLogLeaf w s).2 = [RpcEvent.queueLeafEv j (w.sha256 j)] := by
  unfold queueLogLeaf
  rw [hj]
  dsimp only []
  cases hq : w.queueLeaf j (w.sha256 j) with
  | error e => rfl
  | ok u => rfl

/-- C8: the boolean stream emitted by `genEpochTicks` is exactly the
spec's tick automaton: a single-shot `true` at startup iff
`now - last + minInterval ≥ maxInterval` (updating `last := now`, and
emitting nothing otherwise), then, for each firing `t` of the periodic
`minInterval` clock, `true` with `last := t` when
`t - last + minInterval ≥ maxInterval` and `false` otherwise. -/
theorem C8_tick_generator (now last : Int) (ts : List Int) (minI maxI : Int) :
    genEpochTicks now last ts minI maxI = specTicks minI maxI now last ts := by
  unfold genEpochTicks specTicks tickStep
  by_cases h : maxI ≤ now - last + minI
  · simp only [if_pos h]
    rw [genTicksLoop_eq_specTicksFrom]
    rfl
  · simp only [if_neg h]
    rw [genTicksLoop_eq_specTicksFrom]
    rfl

/-- C3 (amended): with an empty batch and `force = false`, `CreateEpoch`
returns nil without error, having issued only the map-root read and the
mutation-queue read — in particular no `SetLeaves` and no `QueueLeaf`
RPC, hence no new map revision; however the driver loop hands the nil
result to the dispatcher unconditionally, so every registered
subscriber channel is sent a nil message (rather than receiving
nothing). -/
theorem C3_empty_unforced
    (w : World) (channels : List Nat) (root : SMR) (seq : Int)
    (hroot : w.getSignedMapRoot = Except.ok root)
    (hread : w.readAll root.highestFullyCompletedSeq = Except.ok (seq, [])) :
    CreateEpoch w false
      = (Except.ok none,
         [RpcEvent.getSignedMapRootEv,
          RpcEvent.readAllEv root.highestFullyCompletedSeq])
    ∧ setLeavesArgs (CreateEpoch w false).2 = []
    ∧ queueLeafArgs (CreateEpoch w false).2 = []
    ∧ (startSigningIter w channels false).2
        = channels.map (fun c => (c, none)) := by
  have hce : CreateEpoch w false
      = (Except.ok none,
         [RpcEvent.getSignedMapRootEv,
          RpcEvent.readAllEv root.highestFullyCompletedSeq]) := by
    unfold CreateEpoch
    rw [hroot]
    dsimp only []
    rw [hread]
    rfl
  refine ⟨hce, ?_, ?_, ?_⟩
  · rw [hce]; rfl
  · rw [hce]; rfl
  · unfold startSigningIter disseminateMutations
    rw [hce]

/-- Closed witness for C3's amended statement, in a concrete world with
an empty batch and one registered subscriber channel. -/
theorem C3_witness :
    CreateEpoch wEmptyBatch false
      = (Except.ok none,
         [RpcEvent.getSignedMapRootEv, RpcEvent.readAllEv 3])
    ∧ setLeavesArgs (CreateEpoch wEmptyBatch false).2 = []
    ∧ queueLeafArgs (CreateEpoch wEmptyBatch false).2 = []
    ∧ (startSigningIter wEmptyBatch [0] false).2 = [0].map (fun c => (c, none)) :=
  C3_empty_unforced wEmptyBatch [0]
    { mapRevision := 1, rootHash := [9], timestampNanos := 0,
      highestFullyCompletedSeq := 3 } 3 (by rfl) (by rfl)

/-- C3 counterexample: in the same empty-and-unforced situation the
registered subscriber channel *does* receive a message (the nil
response), so it is not the case that nothing is dispatched to
registered channels. -/
theorem C3_counterexample :
    (CreateEpoch wEmptyBatch false).1 = Except.ok none
    ∧ (startSigningIter wEmptyBatch [0] false).2 = [(0, none)]
    ∧ (startSigningIter wEmptyBatch [0] false).2 ≠ [] := by
  refine ⟨by rfl, by rfl, by decide⟩

/-- C6 (amended): for a non-empty (or forced) batch, the index list
`CreateEpoch` sends to `GetLeaves` consists of the key of *every*
mutation in batch order, duplicates included — no per-request
deduplication happens. -/
theorem C6_getleaves_all_keys
    (w : World) (force : Bool) (root : SMR) (seq : Int) (ms : List SignedKV)
    (hroot : w.getSignedMapRoot = Except.ok root)
    (hread : w.readAll root.highestFullyCompletedSeq = Except.ok (seq, ms))
    (hne : (ms.isEmpty && !force) = false) :
    getLeavesArgs (CreateEpoch w force).2
      = [ms.map (fun m => m.keyValue.key)] := by
  unfold CreateEpoch
  rw [hroot]
  dsimp only []
  rw [hread]
  dsimp only []
  rw [hne]
  simp only [Bool.false_eq_true, if_false]
  cases hgl : w.getLeaves (ms.map (fun m => m.keyValue.key)) with
  | error e => rfl
  | ok incls =>
    dsimp only []
    cases hsl : w.setLeaves (applyMutations w.fromLeafValue w.mutate ms
        (incls.map (fun p => p.leaf))) seq with
    | error e =>
      rw [getLeavesArgs_append]
      rfl
    | ok smr2 =>
      dsimp only []
      cases hq : (queueLogLeaf w smr2).1 with
      | error e =>
        rw [getLeavesArgs_append, getLeavesArgs_append,
          getLeavesArgs_queueLogLeaf]
        rfl
      | ok u =>
        dsimp only []
        cases hp : (logProofs w 0 (smr2.mapRevision - 1)).1 with
        | error e =>
          rw [getLeavesArgs_append, getLeavesArgs_append,
            getLeavesArgs_append, getLeavesArgs_queueLogLeaf,
            getLeavesArgs_logProofs]
          rfl
        | ok trip =>
          obtain ⟨logRoot, logCons, logIncl⟩ := trip
          rw [getLeavesArgs_append, getLeavesArgs_append,
            getLeavesArgs_append, getLeavesArgs_queueLogLeaf,
            getLeavesArgs_logProofs]
          rfl

/-- Closed witness for C6's amended statement: the two same-key
mutations of `wBase` are both requested. -/
theorem C6_witness :
    getLeavesArgs (CreateEpoch wBase false).2
      = [[kv [1] [10], kv [1] [11]].map (fun m => m.keyValue.key)] :=
  C6_getleaves_all_keys wBase false
    { mapRevision := 1, rootHash := [9], timestampNanos := 0,
      highestFullyCompletedSeq := 3 } 7
    [kv [1] [10], kv [1] [11]] (by rfl) (by rfl) (by rfl)

/-- C6 counterexample: with two mutations sharing the key `[1]`, the
index list sent to `GetLeaves` is `[[1], [1]]` — the same index is
requested twice, unlike the claimed distinct first-occurrence list
`[[1]]`. -/
theorem C6_counterexample :
    getLeavesArgs (CreateEpoch wBase false).2 = [[[1], [1]]]
    ∧ ([[1], [1]] : List Bytes) ≠ [[1]] := by
  refine ⟨by rfl, by decide⟩

/-- C5: after a successful `SetLeaves`, `CreateEpoch` issues exactly
one `QueueLeaf` RPC, whose leaf value is the JSON serialization of the
signed map root returned by `SetLeaves` and whose identity hash is
SHA-256 of that same serialization; likewise `Initialize` at bootstrap
(empty log, map revision 0) queues exactly one such leaf for the
current map root. -/
theorem C5_queue_one_log_leaf (w : World) (force : Bool) :
    (∀ root seq ms incls smr2 j,
       w.getSignedMapRoot = Except.ok root →
       w.readAll root.highestFullyCompletedSeq = Except.ok (seq, ms) →
       (ms.isEmpty && !force) = false →
       w.getLeaves (ms.map (fun m => m.keyValue.key)) = Except.ok incls →
       w.setLeaves (applyMutations w.fromLeafValue w.mutate ms
           (incls.map (fun p => p.leaf))) seq = Except.ok smr2 →
       w.jsonMarshal smr2 = some j →
       queueLeafArgs (CreateEpoch w force).2 = [(j, w.sha256 j)])
    ∧ (∀ lr mr j,
       w.getLatestSignedLogRoot = Except.ok lr →
       w.getSignedMapRoot = Except.ok mr →
       lr.treeSize = 0 → mr.mapRevision = 0 →
       w.jsonMarshal mr = some j →
       queueLeafArgs (Initialize w).2 = [(j, w.sha256 j)]) := by
  constructor
  · intro root seq ms incls smr2 j hroot hread hne hgl hsl hj
    unfold CreateEpoch
    rw [hroot]
    dsimp only []
    rw [hread]
    dsimp only []
    rw [hne]
    simp only [Bool.false_eq_true, if_false]
    rw [hgl]
    dsimp only []
    rw [hsl]
    dsimp only []
    have ht := queueLogLeaf_trace w smr2 j hj
    cases hq : (queueLogLeaf w smr2).1 with
    | error e =>
      dsimp only []
      rw [queueLeafArgs_append, queueLeafArgs_append, ht]
      rfl
    | ok u =>
      dsimp only []
      cases hp : (logProofs w 0 (smr2.mapRevision - 1)).1 with
      | error e =>
        rw [queueLeafArgs_append, queueLeafArgs_append, queueLeafArgs_append,
          ht, queueLeafArgs_logProofs]
        rfl
      | ok trip =>
        obtain ⟨logRoot, logCons, logIncl⟩ := trip
        rw [queueLeafArgs_append, queueLeafArgs_append, queueLeafArgs_append,
          ht, queueLeafArgs_logProofs]
        rfl
  · intro lr mr j hlr hmr hts hrev hj
    unfold Initialize
    rw [hlr]
    dsimp only []
    rw [hmr]
    dsimp only []
    have hcond : (lr.treeSize == 0 && mr.mapRevision == 0) = true := by
      simp [hts, hrev]
    rw [hcond]
    simp only [if_true]
    rw [queueLeafArgs_append, queueLogLeaf_trace w mr j hj]
    rfl

/-- Closed witness for C5 at concrete worlds: the epoch path queues the
serialized revision-2 root, the bootstrap path the serialized empty
root, each exactly once with its hash. -/
theorem C5_witness :
    queueLeafArgs (CreateEpoch wBase true).2 = [([2, 8], [99, 2, 8])]
    ∧ queueLeafArgs (Initialize wInitEmpty).2 = [([0, 7], [99, 0, 7])] := by
  have h := C5_queue_one_log_leaf wBase true
  have h2 := C5_queue_one_log_leaf wInitEmpty true
  exact ⟨h.1
    { mapRevision := 1, rootHash := [9], timestampNanos := 0,
      highestFullyCompletedSeq := 3 } 7 [kv [1] [10], kv [1] [11]] []
    { mapRevision := 2, rootHash := [8], timestampNanos := 5,
      highestFullyCompletedSeq := 7 } [2, 8]
    (by rfl) (by rfl) (by rfl) (by rfl) (by rfl) (by rfl),
    h2.2 { treeSize := 0 }
    { mapRevision := 0, rootHash := [7], timestampNanos := 0,
      highestFullyCompletedSeq := 0 } [0, 7]
    (by rfl) (by rfl) (by rfl) (by rfl) (by rfl)⟩

/-- C7 (amended): `Initialize` errors iff one of the two root RPCs
fails or, in the both-empty bootstrap case, the enqueue fails; when
both roots are read successfully it enqueues exactly one leaf (the
serialized map root) iff `log.tree_size = 0 ∧ map.revision = 0`, and
otherwise succeeds as a no-op with zero enqueued leaves — no agreement
between log emptiness and map emptiness is checked. -/
theorem C7_initialize_behavior (w : World) :
    (w.getLatestSignedLogRoot = Except.error () →
       Initialize w = (Except.error (), [RpcEvent.getLatestLogRootEv]))
    ∧ (∀ lr, w.getLatestSignedLogRoot = Except.ok lr →
         w.getSignedMapRoot = Except.error () →
         Initialize w = (Except.error (),
           [RpcEvent.getLatestLogRootEv, RpcEvent.getSignedMapRootEv]))
    ∧ (∀ lr mr j, w.getLatestSignedLogRoot = Except.ok lr →
         w.getSignedMapRoot = Except.ok mr →
         lr.treeSize = 0 → mr.mapRevision = 0 →
         w.jsonMarshal mr = some j →
         queueLeafArgs (Initialize w).2 = [(j, w.sha256 j)]
         ∧ ((Initialize w).1 = Except.ok ()
             ↔ w.queueLeaf j (w.sha256 j) = Except.ok ()))
    ∧ (∀ lr mr, w.getLatestSignedLogRoot = Except.ok lr →
         w.getSignedMapRoot = Except.ok mr →
         ¬(lr.treeSize = 0 ∧ mr.mapRevision = 0) →
         Initialize w = (Except.ok (),
           [RpcEvent.getLatestLogRootEv, RpcEvent.getSignedMapRootEv])) := by
  refine ⟨?_, ?_, ?_, ?_⟩
  · intro hlr
    unfold Initialize
    rw [hlr]
  · intro lr hlr hmr
    unfold Initialize
    rw [hlr]
    dsimp only []
    rw [hmr]
  · intro lr mr j hlr hmr hts hrev hj
    unfold Initialize
    rw [hlr]
    dsimp only []
    rw [hmr]
    dsimp only []
    have hcond : (lr.treeSize == 0 && mr.mapRevision == 0) = true := by
      simp [hts, hrev]
    rw [hcond]
    simp only [if_true]
    constructor
    · rw [queueLeafArgs_append, queueLogLeaf_trace w mr j hj]
      rfl
    · unfold queueLogLeaf
      rw [hj]
      dsimp only []
      cases hq : w.queueLeaf j (w.sha256 j) with
      | error e =>
        dsimp only []
        constructor
        · intro hh; exact absurd hh (by simp)
        · intro hh; exact absurd hh (by simp)
      | ok u =>
        dsimp only []
        constructor
        · intro _; rfl
        · intro _; rfl
  · intro lr mr hlr hmr hdis
    unfold Initialize
    rw [hlr]
    dsimp only []
    rw [hmr]
    dsimp only []
    have hb : (lr.treeSize == 0 && mr.mapRevision == 0) = false := by
      rw [Bool.eq_false_iff]
      intro hc
      apply hdis
      simpa [Bool.and_eq_true, beq_iff_eq] using hc
    rw [hb]
    rfl

/-- Closed witness for C7's amended statement: a world with non-empty
trees is a successful no-op, and in the bootstrap world success is
equivalent to the enqueue succeeding. -/
theorem C7_witness :
    Initialize wBase
      = (Except.ok (),
         [RpcEvent.getLatestLogRootEv, RpcEvent.getSignedMapRootEv])
    ∧ ((Initialize wInitEmpty).1 = Except.ok ()
        ↔ wInitEmpty.queueLeaf [0, 7] [99, 0, 7] = Except.ok ()) := by
  have h := C7_initialize_behavior wBase
  have h2 := C7_initialize_behavior wInitEmpty
  exact ⟨h.2.2.2 { treeSize := 4 }
    { mapRevision := 1, rootHash := [9], timestampNanos := 0,
      highestFullyCompletedSeq := 3 } (by rfl) (by rfl) (by decide),
    (h2.2.2.1 { treeSize := 0 }
    { mapRevision := 0, rootHash := [7], timestampNanos := 0,
      highestFullyCompletedSeq := 0 } [0, 7]
    (by rfl) (by rfl) (by rfl) (by rfl) (by rfl)).2⟩

/-- C7 counterexample: with an empty log (tree_size 0) but the map
already at revision 5 the trees neither agree on emptiness nor are both
non-empty, yet `Initialize` returns success (a no-op), refuting the
claimed "success iff both trees agree on emptiness or both are
non-empty". -/
theorem C7_counterexample :
    (Initialize wInitDisagree).1 = Except.ok ()
    ∧ wInitDisagree.getLatestSignedLogRoot = Except.ok { treeSize := 0 }
    ∧ wInitDisagree.getSignedMapRoot = Except.ok
        { mapRevision := 5, rootHash := [7], timestampNanos := 0,
          highestFullyCompletedSeq := 0 }
    ∧ ¬((0 : Int) = 0 ∧ (5 : Int) = 0)
    ∧ ¬(¬(0 : Int) = 0 ∧ ¬(5 : Int) = 0) := by
  refine ⟨by rfl, by rfl, by rfl, by decide, by decide⟩

end KT
